import Mathlib

/-!
Shallow embedding of the core of the `react-stepseq-web` step sequencer
(`src/src/App.tsx`), covering: the pattern data model and its toggle
operations, the Euclidean rhythm generator, the melody randomizer
(`randomizeSynth` with all of its placement engines and post-processing
passes), the sampler-slice computation performed inside the `Tone.Sequence`
tick callback, the drum accent velocities, the marker-list operations, the
preset lookup, and the startup persistence load.

JavaScript numbers are modelled as `ℚ` (the sources only use arithmetic,
comparison, `Math.floor`, `Math.round`, `Math.max`, `Math.min` on them —
no transcendental function reaches any value we reason about).
`Math.random()` is modelled as an explicit stream `ℕ → ℚ` consumed at an
incrementing counter, one entry per call, in source order.  JavaScript
array indexing `a[i]` on in-range indices is modelled with `List.getD`
(the default is never reached for a random stream ranging over `[0,1)`).
-/

namespace StepSeq

/-- `STEPS = 16` from `App.tsx`. -/
def STEPS : ℕ := 16

/-- `MAX_MARKERS = 16` from `App.tsx`. -/
def MAX_MARKERS : ℕ := 16

/-- `ROLL_NOTES` pitch table from `App.tsx` (12 entries, descending). -/
def ROLL_NOTES : List String :=
  ["C3", "B2", "A#2", "A2", "G#2", "G2", "F#2", "F2", "E2", "D#2", "D2", "C2"]

/-- The four drum tracks (`TRACKS` in `App.tsx`). -/
inductive TrackId
  | kick
  | snare
  | hihat
  | perc
deriving DecidableEq, Repr

/-- `PatternState` from `App.tsx`: drum grids, synth roll, sampler roll.
Roll entries are `none` (no event) or a row / marker index. -/
structure PatternState where
  drums : TrackId → List Bool
  synthRoll : List (Option ℤ)
  samplerRoll : List (Option ℤ)

/-- `makeEmpty()` from `App.tsx`. -/
def makeEmpty : PatternState :=
  { drums := fun _ => List.replicate STEPS false
    synthRoll := List.replicate STEPS none
    samplerRoll := List.replicate STEPS none }

/-- `toggleDrum(track, i)` from `App.tsx`:
`next.drums[track][i] = !next.drums[track][i]`. -/
def toggleDrum (track : TrackId) (i : ℕ) (st : PatternState) : PatternState :=
  { st with
    drums := Function.update st.drums track
      ((st.drums track).set i (!(st.drums track).getD i false)) }

/-- `toggleRoll(row, col)` from `App.tsx`:
`next.synthRoll[col] = (next.synthRoll[col] === row) ? null : row`. -/
def toggleRoll (row : ℤ) (col : ℕ) (st : PatternState) : PatternState :=
  { st with
    synthRoll := st.synthRoll.set col
      (if st.synthRoll.getD col none = some row then none else some row) }

/-- `toggleSamplerCell(markerRow, stepCol)` from `App.tsx`. -/
def toggleSamplerCell (markerRow : ℤ) (stepCol : ℕ) (st : PatternState) : PatternState :=
  { st with
    samplerRoll := st.samplerRoll.set stepCol
      (if st.samplerRoll.getD stepCol none = some markerRow then none else some markerRow) }

/-! ## Euclidean rhythm generator (`euclid` in `App.tsx`) -/

/-- The bucket loop of `euclid`: `bucket += k; if bucket >= n { bucket -= n;
push true } else push false`, run `fuel` times. -/
def euclidLoop (k n : ℕ) : ℕ → ℕ → List Bool
  | _, 0 => []
  | bucket, fuel + 1 =>
    let b := bucket + k
    if n ≤ b then true :: euclidLoop k n (b - n) fuel
    else false :: euclidLoop k n b fuel

/-- `euclid(k, n)` before the final random rotation: clamp `k` to `[0, n]`,
short-circuit `k = 0` (all false) and `k = n` (all true), else run the
bucket loop over `n` steps. -/
def euclidBase (k n : ℕ) : List Bool :=
  let k' := min n k
  if k' = 0 then List.replicate n false
  else if k' = n then List.replicate n true
  else euclidLoop k' n 0 n

/-- Full `euclid(k, n)`: the base mask rotated by `rot = Math.floor(Math.random() * n)`
via `pattern.map((_, i) => pattern[(i + rot) % n])`. -/
def euclid (rot : ℕ) (k n : ℕ) : List Bool :=
  let p := euclidBase k n
  (List.range n).map fun i => p.getD ((i + rot) % n) false

/-! ## Drum accent velocities (`Tone.Sequence` callback in `App.tsx`) -/

/-- Kick velocity at step `i`:
`accentEvery && (i % accentEvery === 0) ? 1 : 0.85` (0 is falsy in JS). -/
def kickVel (accentEvery i : ℕ) : ℚ :=
  if accentEvery ≠ 0 ∧ i % accentEvery = 0 then 1 else 85/100

/-- Snare velocity at step `i`:
`accentEvery && (i % accentEvery === 2) ? 0.95 : 0.8`. -/
def snareVel (accentEvery i : ℕ) : ℚ :=
  if accentEvery ≠ 0 ∧ i % accentEvery = 2 then 95/100 else 8/10

/-! ## Sampler slice dispatch (sampler branch of the tick callback) -/

/-- The sampler branch of the `Tone.Sequence` callback.  `playerLoaded`
models `playerRef.current` being non-null, `bufDur` models
`playerRef.current.buffer?.duration ?? 0`, `cell` models `samplerRoll[i]`.
Returns `some (start, dur)` when `playerRef.current.start(time, start, dur)`
is called, `none` when the step is skipped. -/
def samplerStep (playerLoaded : Bool) (bufDur : ℚ) (markers : List ℚ)
    (cell : Option ℕ) : Option (ℚ × ℚ) :=
  if playerLoaded then
    match cell with
    | none => none
    | some mark =>
      if 0 < bufDur ∧ markers.length ≠ 0 then
        let start := max 0 (min bufDur (markers.getD mark 0))
        let nxt := if mark + 1 < markers.length then markers.getD (mark + 1) 0 else bufDur
        let dur := max (5/1000) (min (bufDur - start) (nxt - start))
        if 0 < dur then some (start, dur) else none
      else none
  else none

/-! ## Marker-list operations -/

/-- `addMarkerHere` (state update part) from `App.tsx`:
`if (prev.length >= MAX_MARKERS) return prev;
const next = [...prev, t].sort((x, y) => x - y); return next;`. -/
def addMarkerHere (t : ℚ) (prev : List ℚ) : List ℚ :=
  if MAX_MARKERS ≤ prev.length then prev
  else (prev ++ [t]).mergeSort fun x y => decide (x ≤ y)

/-- `clearMarkers()` from `App.tsx`: `setMarkers([])`. -/
def clearMarkers : List ℚ := []

/-- The marker reset performed by `onSampleFile` (`setMarkers([])`). -/
def onSampleFileMarkers : List ℚ := []

/-! ## Synth presets (`SYNTH_PRESETS` and `applyPreset` in `App.tsx`) -/

/-- Oscillator wave types used by the presets. -/
inductive Wave
  | sine
  | triangle
  | square
  | sawtooth
deriving DecidableEq, Repr

/-- Distortion oversample setting (`'none' | '2x' | '4x'`). -/
inductive Oversample
  | none
  | twoX
  | fourX
deriving DecidableEq, Repr

/-- Parameter block of a synth preset. -/
structure SynthParams where
  wave : Wave
  cutoff : ℚ
  resonance : ℚ
  attack : ℚ
  decay : ℚ
  sustain : ℚ
  release : ℚ
  detune : ℚ
  porta : ℚ
  distOn : Bool
  distAmount : ℚ
  distWet : ℚ
  distOversample : Oversample
  drive : ℚ
  makeup : ℚ
deriving Repr

/-- A named synth preset. -/
structure SynthPreset where
  name : String
  params : SynthParams
deriving Repr

/-- `SYNTH_PRESETS` from `App.tsx` (5 entries). -/
def SYNTH_PRESETS : List SynthPreset :=
  [ { name := "House Bass"
      params := { wave := .sawtooth, cutoff := 1200, resonance := 12/10, attack := 3/1000,
                  decay := 12/100, sustain := 1/10, release := 18/100, detune := 0,
                  porta := 2/100, distOn := true, distAmount := 45/100, distWet := 65/100,
                  distOversample := .twoX, drive := 22/10, makeup := 9/10 } }
  , { name := "Techno Rumble"
      params := { wave := .sine, cutoff := 700, resonance := 18/10, attack := 2/1000,
                  decay := 22/100, sustain := 0, release := 4/10, detune := -5,
                  porta := 3/100, distOn := true, distAmount := 65/100, distWet := 85/100,
                  distOversample := .fourX, drive := 32/10, makeup := 8/10 } }
  , { name := "Hip-Hop Sub"
      params := { wave := .sine, cutoff := 500, resonance := 8/10, attack := 4/1000,
                  decay := 35/100, sustain := 15/100, release := 5/10, detune := 0,
                  porta := 8/100, distOn := false, distAmount := 2/10, distWet := 0,
                  distOversample := .twoX, drive := 14/10, makeup := 95/100 } }
  , { name := "UKG Reese"
      params := { wave := .square, cutoff := 1600, resonance := 14/10, attack := 3/1000,
                  decay := 25/100, sustain := 25/100, release := 28/100, detune := 12,
                  porta := 4/100, distOn := true, distAmount := 5/10, distWet := 6/10,
                  distOversample := .twoX, drive := 28/10, makeup := 85/100 } }
  , { name := "Acid Squelch"
      params := { wave := .sawtooth, cutoff := 900, resonance := 6, attack := 2/1000,
                  decay := 18/100, sustain := 0, release := 16/100, detune := 0,
                  porta := 0, distOn := true, distAmount := 7/10, distWet := 75/100,
                  distOversample := .fourX, drive := 35/10, makeup := 8/10 } } ]

/-- JavaScript array indexing with a signed index: `l[i]` is defined for
`0 ≤ i < l.length` and `undefined` (here `none`) otherwise. -/
def jsIndex {α : Type} (l : List α) (i : ℤ) : Option α :=
  if 0 ≤ i then l.get? i.toNat else none

/-- The index expression of `applyPreset(i)`:
`(i + SYNTH_PRESETS.length) % SYNTH_PRESETS.length`, with JavaScript `%`
(remainder truncated toward zero, sign of the dividend: `Int.tmod`). -/
def presetLookupIndex (i : ℤ) : ℤ :=
  Int.tmod (i + (SYNTH_PRESETS.length : ℤ)) (SYNTH_PRESETS.length : ℤ)

/-- The preset selected by `applyPreset(i)`:
`SYNTH_PRESETS[(i + SYNTH_PRESETS.length) % SYNTH_PRESETS.length]`. -/
def applyPresetChoice (i : ℤ) : Option SynthPreset :=
  jsIndex SYNTH_PRESETS (presetLookupIndex i)

/-! ## Startup persistence load (the `useState<PatternState>` initializer) -/

/-- Abstraction of `JSON.parse` applied to a present stored string: it either
throws (the string is malformed) or yields a parsed value. -/
inductive StoredValue (α : Type)
  | malformed
  | parsed (a : α)

/-- The shape a well-formed `patterns_v2` payload is used at: a drum grid, a
synth roll, and a sampler roll which may be absent (`!parsed.samplerRoll`). -/
structure ParsedV2 where
  drums : TrackId → List Bool
  synthRoll : List (Option ℤ)
  samplerRoll : Option (List (Option ℤ))

/-- The `useState<PatternState>` initializer from `App.tsx`:

```js
const saved = localStorage.getItem('patterns_v2');
if (saved) { const parsed = JSON.parse(saved);
  if (!parsed.samplerRoll) parsed.samplerRoll = Array(STEPS).fill(null);
  return parsed; }
const legacy = localStorage.getItem('patterns');
if (legacy) return { drums: JSON.parse(legacy), synthRoll: ..., samplerRoll: ... };
return makeEmpty();
```

A present key holds either a malformed string (on which `JSON.parse` throws —
there is no `try`/`catch`, so the initializer throws, modelled by
`Except.error`) or a string parsing to a payload.  `none` models an absent
key. -/
def loadPatternState (savedV2 : Option (StoredValue ParsedV2))
    (legacy : Option (StoredValue (TrackId → List Bool))) :
    Except Unit PatternState :=
  match savedV2 with
  | some .malformed => .error ()
  | some (.parsed p) =>
    .ok { drums := p.drums
          synthRoll := p.synthRoll
          samplerRoll := p.samplerRoll.getD (List.replicate STEPS none) }
  | none =>
    match legacy with
    | some .malformed => .error ()
    | some (.parsed d) =>
      .ok { drums := d
            synthRoll := List.replicate STEPS none
            samplerRoll := List.replicate STEPS none }
    | none => .ok makeEmpty

/-! ## Melody randomizer (`randomizeSynth` and its helpers in `App.tsx`)

`Math.random()` is an explicit stream `r : ℕ → ℚ` read at an incrementing
counter `k`, one read per source-level call, in source evaluation order. -/

/-- A `Math.random()` stream (values in `[0,1)` for a real browser). -/
abbrev R := ℕ → ℚ

/-- One `Math.random()` call: read the stream, advance the counter. -/
def draw (r : R) (k : ℕ) : ℚ × ℕ := (r k, k + 1)

/-- `Math.round(q)` (half-up, toward `+∞` at ties, as in JavaScript). -/
def jsRound (q : ℚ) : ℤ := ⌊q + 1/2⌋

/-- `clamp(v, a, b) = Math.max(a, Math.min(b, v))` from `App.tsx`. -/
def clampZ (v a b : ℤ) : ℤ := max a (min b v)

/-- `l[Math.floor(q * l.length)]` — the ubiquitous random-element pick.
Out-of-range access (unreachable for `q ∈ [0,1)`) defaults to `0`. -/
def rowPickAt (l : List ℤ) (q : ℚ) : ℤ :=
  (jsIndex l ⌊q * (l.length : ℚ)⌋).getD 0

/-- Base semitone of a note letter, `{C:0, D:2, E:4, F:5, G:7, A:9, B:11}`
restricted to `[A-Ga-g]` as by the regex in `notePc`. -/
def letterBase (c : Char) : Option ℤ :=
  if c = 'C' ∨ c = 'c' then some 0
  else if c = 'D' ∨ c = 'd' then some 2
  else if c = 'E' ∨ c = 'e' then some 4
  else if c = 'F' ∨ c = 'f' then some 5
  else if c = 'G' ∨ c = 'g' then some 7
  else if c = 'A' ∨ c = 'a' then some 9
  else if c = 'B' ∨ c = 'b' then some 11
  else none

/-- The octave part of the regex `(-?\d+)`: an optional minus then at least
one digit. -/
def octOk : List Char → Bool
  | '-' :: cs => !cs.isEmpty && cs.all Char.isDigit
  | cs => !cs.isEmpty && cs.all Char.isDigit

/-- The `notePc` helper inside `randomizeSynth`'s `buildRows`: match
`^([A-Ga-g])([#b]?)(-?\d+)$`, return `((s % 12) + 12) % 12` where `s` is the
letter base adjusted by the accidental; `0` when the regex fails. -/
def notePc (n : String) : ℤ :=
  match n.data with
  | [] => 0
  | c :: rest =>
    match letterBase c with
    | none => 0
    | some b =>
      match rest with
      | '#' :: rest2 => if octOk rest2 then (((b + 1) % 12) + 12) % 12 else 0
      | 'b' :: rest2 => if octOk rest2 then (((b - 1) % 12) + 12) % 12 else 0
      | rest2 => if octOk rest2 then ((b % 12) + 12) % 12 else 0

/-- `rowPc`: pitch class of each `ROLL_NOTES` row. -/
def rowPcList : List ℤ := ROLL_NOTES.map notePc

/-- The four scale presets (`SCALES` in `randomizeSynth`). -/
inductive ScaleName
  | major
  | minor
  | pentatonic
  | blues
deriving DecidableEq, Repr

/-- Interval offsets of each scale preset. -/
def scalePcs : ScaleName → List ℤ
  | .major => [0, 2, 4, 5, 7, 9, 11]
  | .minor => [0, 2, 3, 5, 7, 8, 10]
  | .pentatonic => [0, 3, 5, 7, 10]
  | .blues => [0, 3, 5, 6, 7, 10]

/-- `rootPcMap` from `randomizeSynth`. -/
def rootPcMap (s : String) : Option ℤ :=
  if s = "C" then some 0
  else if s = "C#" then some 1
  else if s = "Db" then some 1
  else if s = "D" then some 2
  else if s = "D#" then some 3
  else if s = "Eb" then some 3
  else if s = "E" then some 4
  else if s = "F" then some 5
  else if s = "F#" then some 6
  else if s = "Gb" then some 6
  else if s = "G" then some 7
  else if s = "G#" then some 8
  else if s = "Ab" then some 8
  else if s = "A" then some 9
  else if s = "A#" then some 10
  else if s = "Bb" then some 10
  else if s = "B" then some 11
  else none

/-- `(root).replace('♯','#').replace('♭','b')`. -/
def normalizeRoot (s : String) : String :=
  (s.replace "♯" "#").replace "♭" "b"

/-- `allowedRows`: rows of `ROLL_NOTES` whose pitch class is in the
transposed scale set (`buildRows` loop). -/
def allowedRowsOf (allowedPc : List ℤ) : List ℤ :=
  (List.range ROLL_NOTES.length).filterMap fun i =>
    if rowPcList.getD i 0 ∈ allowedPc then some (i : ℤ) else none

/-- `rootRows = ROLL_NOTES.map((_,r)=>r).filter(r => rowPc[r] === rootPc)`. -/
def rootRowsOf (rootPc : ℤ) : List ℤ :=
  (List.range ROLL_NOTES.length).filterMap fun i =>
    if rowPcList.getD i 0 = rootPc then some (i : ℤ) else none

/-- The nine pattern styles of `randomizeSynth`. -/
inductive Style
  | arpUp
  | arpDown
  | arpBounce
  | syncopatedBass
  | offbeatStab
  | euclidShuffle
  | sparseMotif
  | denseRun
  | motifVariations
deriving DecidableEq, Repr

/-- `allStyles` from `randomizeSynth`. -/
def allStyles : List Style :=
  [.arpUp, .arpDown, .arpBounce, .syncopatedBass, .offbeatStab,
   .euclidShuffle, .sparseMotif, .denseRun, .motifVariations]

/-- Options record accepted by `randomizeSynth`. -/
structure SynthOpts where
  style : Option Style := none
  scale : Option ScaleName := none
  density : Option ℚ := none
  hits : Option ℚ := none
  root : Option String := none
  jumpProb : Option ℚ := none

/-- The argument of `randomizeSynth`: absent, a bare number, or options. -/
inductive RandomizeArg
  | noArg
  | num (q : ℚ)
  | withOpts (o : SynthOpts)

/-- Argument parsing: `arg > 1 ? { hits: Math.round(arg) } : { density: arg }`. -/
def optsOf : RandomizeArg → SynthOpts
  | .noArg => {}
  | .num q => if 1 < q then { hits := some ((jsRound q : ℤ) : ℚ) } else { density := some q }
  | .withOpts o => o

/-- `pickN(arr, n)` from `App.tsx`: repeatedly splice a random element out
of a working copy, `n` times or until the copy is exhausted. -/
def pickN {α : Type} (dflt : α) (r : R) : List α → ℕ → ℕ → List α × ℕ
  | _, 0, k => ([], k)
  | [], _ + 1, k => ([], k)
  | a, n + 1, k =>
    let (q, k1) := draw r k
    let j := ⌊q * (a.length : ℚ)⌋
    let x := (jsIndex a j).getD dflt
    let a' := if 0 ≤ j then a.eraseIdx j.toNat else a
    let (rest, k2) := pickN dflt r a' n k1
    (x :: rest, k2)

/-- `on(idxs)` inside `maskFromStyle`. -/
def maskOn (idxs : List ℕ) (steps : ℕ) : List Bool :=
  (List.range steps).map fun i => decide (i ∈ idxs)

/-- `rotate(arr, r)` inside `maskFromStyle`:
`arr.map((_, i) => arr[(i - r + steps) % steps])`. -/
def rotateMask (arr : List Bool) (rot steps : ℕ) : List Bool :=
  arr.mapIdx fun i _ => arr.getD ((i + steps - rot) % steps) false

/-- The probabilistic fills of the `offbeat-stab` style: for each candidate
index draw once, set it true on `q < 0.25`. -/
def applyFills (r : R) : List ℕ → List Bool → ℕ → List Bool × ℕ
  | [], base, k => (base, k)
  | i :: is, base, k =>
    let (q, k1) := draw r k
    if q < 25/100 then applyFills r is (base.set i true) k1
    else applyFills r is base k1

/-- The bucket loop shared by the `euclid-shuffle` and default branches of
`maskFromStyle` (same loop as `euclid`, no clamping or short-circuit). -/
def bucketMask (k steps : ℕ) : List Bool := euclidLoop k steps 0 steps

/-- `maskFromStyle(style, hits, steps)` from `App.tsx`. -/
def maskFromStyle (r : R) (style : Style) (hits : ℕ) (steps : ℕ) (k : ℕ) :
    List Bool × ℕ :=
  match style with
  | .offbeatStab =>
    let base := maskOn [2, 6, 10, 14] steps
    applyFills r [1, 5, 9, 13, 3, 7, 11, 15] base k
  | .syncopatedBass =>
    let base := maskOn [0, 3, 7, 10, 12, 15] steps
    let (q, k1) := draw r k
    let rot := (⌊q * 4⌋).toNat * 1
    (rotateMask base rot steps, k1)
  | .euclidShuffle =>
    let kk := (clampZ (hits : ℤ) 4 12).toNat
    let out := bucketMask kk steps
    let (q, k1) := draw r k
    (rotateMask out (⌊q * (steps : ℚ)⌋).toNat steps, k1)
  | .sparseMotif =>
    let cnt := (clampZ (jsRound ((hits : ℚ) * (6/10))) 3 8).toNat
    let (idxs, k1) := pickN 0 r (List.range steps) cnt k
    (maskOn (idxs.mergeSort fun x y => decide (x ≤ y)) steps, k1)
  | .denseRun =>
    let cnt := (clampZ (jsRound ((hits : ℚ) * (11/10))) 8 14).toNat
    let (idxs, k1) := pickN 0 r (List.range steps) cnt k
    (maskOn (idxs.mergeSort fun x y => decide (x ≤ y)) steps, k1)
  | _ =>
    let kk := (clampZ (hits : ℤ) 6 12).toNat
    (bucketMask kk steps, k)

/-- Arpeggio direction. -/
inductive ArpDir
  | up
  | down
  | bounce
deriving DecidableEq

/-- Step loop of `placeArp`: on each active step take the next chord tone,
then with probability `0.12` jump `±2` rows, clamped to the roll. -/
def placeArpGo (r : R) (seqL : List ℤ) (mask : List Bool) :
    List ℕ → List (Option ℤ) → ℕ → ℕ → List (Option ℤ) × ℕ
  | [], line, _, k => (line, k)
  | i :: is, line, ptr, k =>
    if mask.getD i false then
      let v := seqL.getD (ptr % seqL.length) 0
      let (q1, k1) := draw r k
      if q1 < 12/100 then
        let (q2, k2) := draw r k1
        let tgt := v + (if q2 < 1/2 then -2 else 2)
        let v2 := clampZ tgt 0 ((ROLL_NOTES.length : ℤ) - 1)
        placeArpGo r seqL mask is (line.set i (some v2)) (ptr + 1) k2
      else
        placeArpGo r seqL mask is (line.set i (some v)) (ptr + 1) k1
    else
      placeArpGo r seqL mask is line ptr k

/-- `placeArp(direction)` from `randomizeSynth`. -/
def placeArp (r : R) (allowed : List ℤ) (mask : List Bool) (dir : ArpDir)
    (line : List (Option ℤ)) (k : ℕ) : List (Option ℤ) × ℕ :=
  let mid := allowed.getD (allowed.length / 2) 0
  let pool := allowed.filter fun x => decide (|x - mid| ≤ 4)
  let src := if pool.length ≠ 0 then pool else allowed
  let (q1, k1) := draw r k
  let n := (⌊(3 : ℚ) + q1 * 2⌋).toNat
  let (chordRaw, k2) := pickN 0 r src n k1
  let chord := chordRaw.mergeSort fun x y => decide (x ≤ y)
  let seqL := match dir with
    | .up => chord
    | .down => chord.reverse
    | .bounce => chord ++ (chord.reverse.drop 1).dropLast
  let (q2, k3) := draw r k2
  let ptr0 := (⌊q2 * (seqL.length : ℚ)⌋).toNat
  placeArpGo r seqL mask (List.range STEPS) line ptr0 k3

/-- Step loop of `placeMotifVariations` over `i = bar*8 + s`. -/
def placeMotifGo (r : R) (allowed : List ℤ) (motif : List ℤ) (mask : List Bool) :
    List ℕ → List (Option ℤ) → ℕ → List (Option ℤ) × ℕ
  | [], line, k => (line, k)
  | i :: is, line, k =>
    if mask.getD i false then
      let n0 := motif.getD (i % 4) 0
      let (qa, ka) := draw r k
      let (n1, kb) :=
        if qa < 25/100 then
          let (qd, kd) := draw r ka
          (clampZ (n0 + (if qd < 1/2 then -1 else 1)) 0 ((ROLL_NOTES.length : ℤ) - 1), kd)
        else (n0, ka)
      let (qc, kc) := draw r kb
      let (n2, ke) :=
        if qc < 1/10 then
          let (qe, kf) := draw r kc
          (rowPickAt allowed qe, kf)
        else (n1, kc)
      placeMotifGo r allowed motif mask is (line.set i (some n2)) ke
    else
      placeMotifGo r allowed motif mask is line k

/-- `placeMotifVariations()` from `randomizeSynth`. -/
def placeMotif (r : R) (allowed : List ℤ) (mask : List Bool)
    (line : List (Option ℤ)) (k : ℕ) : List (Option ℤ) × ℕ :=
  let c := allowed.getD (allowed.length / 2) 0
  let (q1, k1) := draw r k
  let m1 := clampZ (c + (if q1 < 1/2 then -1 else 1)) 0 ((ROLL_NOTES.length : ℤ) - 1)
  let (q2, k2) := draw r k1
  let m3 := clampZ (c + (if q2 < 1/2 then -2 else 2)) 0 ((ROLL_NOTES.length : ℤ) - 1)
  placeMotifGo r allowed [c, m1, c, m3] mask (List.range STEPS) line k2

/-- Step loop of `placeBassSyncopated`. -/
def placeBassGo (r : R) (allowed : List ℤ) (mask : List Bool) :
    List ℕ → List (Option ℤ) → Option ℤ → ℕ → List (Option ℤ) × ℕ
  | [], line, _, k => (line, k)
  | i :: is, line, prev, k =>
    if mask.getD i false then
      match prev with
      | none =>
        let nxt := allowed.getD (allowed.length / 2) 0
        placeBassGo r allowed mask is (line.set i (some nxt)) (some nxt) k
      | some p =>
        let (q1, k1) := draw r k
        if q1 < 15/100 then
          let (q2, k2) := draw r k1
          let nxt := rowPickAt allowed q2
          placeBassGo r allowed mask is (line.set i (some nxt)) (some nxt) k2
        else
          let candidates := [p - 2, p - 1, p + 1, p + 2].filter fun x =>
            decide (0 ≤ x ∧ x < (ROLL_NOTES.length : ℤ))
          if candidates.length ≠ 0 then
            let (q2, k2) := draw r k1
            let nxt := rowPickAt candidates q2
            placeBassGo r allowed mask is (line.set i (some nxt)) (some nxt) k2
          else
            placeBassGo r allowed mask is (line.set i (some p)) (some p) k1
    else
      placeBassGo r allowed mask is line prev k

/-- `placeBassSyncopated()` from `randomizeSynth`. -/
def placeBass (r : R) (allowed : List ℤ) (mask : List Bool)
    (line : List (Option ℤ)) (k : ℕ) : List (Option ℤ) × ℕ :=
  placeBassGo r allowed mask (List.range STEPS) line none k

/-- Step loop of `placeEuclidShuffle`. -/
def placeEuclidGo (r : R) (allowed : List ℤ) (mask : List Bool) (jumpProb : ℚ) :
    List ℕ → List (Option ℤ) → ℤ → ℕ → List (Option ℤ) × ℕ
  | [], line, _, k => (line, k)
  | i :: is, line, cur, k =>
    if mask.getD i false then
      let (q1, k1) := draw r k
      if q1 < jumpProb then
        let (q2, k2) := draw r k1
        let cur2 := rowPickAt allowed q2
        placeEuclidGo r allowed mask jumpProb is (line.set i (some cur2)) cur2 k2
      else
        let (q2, k2) := draw r k1
        let (q3, k3) := draw r k2
        let stepMove := (if q2 < 1/2 then (-1 : ℤ) else 1) * (if q3 < 1/2 then 1 else 2)
        let cur2 := clampZ (cur + stepMove) 0 ((ROLL_NOTES.length : ℤ) - 1)
        placeEuclidGo r allowed mask jumpProb is (line.set i (some cur2)) cur2 k3
    else
      placeEuclidGo r allowed mask jumpProb is line cur k

/-- `placeEuclidShuffle()` from `randomizeSynth` (also used by `dense-run`). -/
def placeEuclid (r : R) (allowed : List ℤ) (mask : List Bool) (jumpProb : ℚ)
    (line : List (Option ℤ)) (k : ℕ) : List (Option ℤ) × ℕ :=
  let (q0, k0) := draw r k
  let cur0 := rowPickAt allowed q0
  placeEuclidGo r allowed mask jumpProb (List.range STEPS) line cur0 k0

/-- Step loop of `placeSparseMotif`. -/
def placeSparseGo (r : R) (srcRows : List ℤ) (mask : List Bool) :
    List ℕ → List (Option ℤ) → ℕ → List (Option ℤ) × ℕ
  | [], line, k => (line, k)
  | i :: is, line, k =>
    if mask.getD i false then
      let (q, k1) := draw r k
      let pick := rowPickAt srcRows q
      placeSparseGo r srcRows mask is (line.set i (some pick)) k1
    else
      placeSparseGo r srcRows mask is line k

/-- `placeSparseMotif()` from `randomizeSynth` (also used by `offbeat-stab`). -/
def placeSparse (r : R) (allowed : List ℤ) (rootPc : ℤ) (mask : List Bool)
    (line : List (Option ℤ)) (k : ℕ) : List (Option ℤ) × ℕ :=
  let strongPc : List ℤ := [rootPc % 12, (rootPc + 7) % 12, (rootPc + 4) % 12]
  let strongRows := allowed.filter fun rr => decide (rowPcList.getD rr.toNat 0 ∈ strongPc)
  let srcRows := if strongRows.length ≠ 0 then strongRows else allowed
  placeSparseGo r srcRows mask (List.range STEPS) line k

/-- Body of `deRepeat` from `i = 1` on: `prev` is the (possibly already
nudged) value at `i - 1`.  A draw happens only when the current entry is
non-null and equal to the previous one; on `q < 0.55` a second draw picks
the up or down nudge, each falling back to the unchanged value at the roll
boundary. -/
def deRepeatGo (r : R) : List (Option ℤ) → Option ℤ → ℕ → List (Option ℤ) × ℕ
  | [], _, k => ([], k)
  | x :: rest, prev, k =>
    match x, prev with
    | some v, some p =>
      if v = p then
        let (q1, k1) := draw r k
        if q1 < 55/100 then
          let up := if 0 ≤ v - 1 then v - 1 else v
          let dn := if v + 1 < (ROLL_NOTES.length : ℤ) then v + 1 else v
          let (q2, k2) := draw r k1
          let newV := if q2 < 1/2 then up else dn
          let (rest2, k3) := deRepeatGo r rest (some newV) k2
          (some newV :: rest2, k3)
        else
          let (rest2, k2) := deRepeatGo r rest (some v) k1
          (some v :: rest2, k2)
      else
        let (rest2, k1) := deRepeatGo r rest (some v) k
        (some v :: rest2, k1)
    | _, _ =>
      let (rest2, k1) := deRepeatGo r rest x k
      (x :: rest2, k1)

/-- `deRepeat(line)` from `App.tsx` (the loop starts at `i = 1`). -/
def deRepeat (r : R) (line : List (Option ℤ)) (k : ℕ) : List (Option ℤ) × ℕ :=
  match line with
  | [] => ([], k)
  | x :: rest =>
    let (rest2, k1) := deRepeatGo r rest x k
    (x :: rest2, k1)

/-- The nearest-root fold of `cadenceToRoot`:
`let best = rootRows[0]; for (const rr of rootRows) if (|rr-cur| < |best-cur|) best = rr`. -/
def nearestIn (rows : List ℤ) (cur : ℤ) : ℤ :=
  rows.foldl (fun best rr => if |rr - cur| < |best - cur| then rr else best)
    (rows.getD 0 0)

/-- Per-index body of `cadenceToRoot` (a draw only when the entry is non-null). -/
def cadenceGo (r : R) (rootRows : List ℤ) :
    List ℕ → List (Option ℤ) → ℕ → List (Option ℤ) × ℕ
  | [], line, k => (line, k)
  | i :: is, line, k =>
    match line.getD i none with
    | none => cadenceGo r rootRows is line k
    | some cur =>
      let (q, k1) := draw r k
      if q < 1/2 then
        cadenceGo r rootRows is (line.set i (some (nearestIn rootRows cur))) k1
      else
        cadenceGo r rootRows is line k1

/-- `cadenceToRoot(line, allowedRows, rootRows)` from `App.tsx`. -/
def cadenceToRoot (r : R) (allowed rootRows : List ℤ)
    (line : List (Option ℤ)) (k : ℕ) : List (Option ℤ) × ℕ :=
  if rootRows.length = 0 ∨ allowed.length = 0 then (line, k)
  else
    let lastIdxs :=
      (([(line.length : ℤ) - 2, (line.length : ℤ) - 1]).filter fun i =>
        decide (0 ≤ i)).map Int.toNat
    cadenceGo r rootRows lastIdxs line k

/-- `const style = opts.style ?? allStyles[Math.floor(Math.random()*allStyles.length)]`
(one draw only when absent), returning the style and the advanced counter. -/
def styleOf (r : R) (o : SynthOpts) : Style × ℕ :=
  match o.style with
  | some s => (s, 0)
  | none =>
    let (q, kk) := draw r 0
    ((jsIndex allStyles ⌊q * (allStyles.length : ℚ)⌋).getD .arpUp, kk)

/-- The `switch (style)` dispatch of `randomizeSynth` routing to the five
placement engines. -/
def synthEngine (r : R) (style : Style) (allowed : List ℤ) (rootPc : ℤ)
    (jumpProb : ℚ) (mask : List Bool) (line0 : List (Option ℤ)) (k : ℕ) :
    List (Option ℤ) × ℕ :=
  match style with
  | .arpUp => placeArp r allowed mask .up line0 k
  | .arpDown => placeArp r allowed mask .down line0 k
  | .arpBounce => placeArp r allowed mask .bounce line0 k
  | .syncopatedBass => placeBass r allowed mask line0 k
  | .euclidShuffle => placeEuclid r allowed mask jumpProb line0 k
  | .sparseMotif => placeSparse r allowed rootPc mask line0 k
  | .denseRun => placeEuclid r allowed mask jumpProb line0 k
  | .offbeatStab => placeSparse r allowed rootPc mask line0 k
  | .motifVariations => placeMotif r allowed mask line0 k

/-- `randomizeSynth(arg)` from `App.tsx` (lines 363–560): the full pipeline
producing the replacement `synthRoll` passed to `setState`. -/
def randomizeSynth (r : R) (arg : RandomizeArg) : List (Option ℤ) :=
  let opts := optsOf arg
  let (style, k1) := styleOf r opts
  let scaleName := opts.scale.getD .minor
  let rootName :=
    normalizeRoot (match opts.root with
      | none => "C"
      | some s => if s = "" then "C" else s)
  let jumpProb := max 0 (min 1 (opts.jumpProb.getD (12/100)))
  let density := max 0 (min 1 (opts.density.getD (42/100)))
  let hits : ℕ :=
    (max 0 (min (STEPS : ℤ)
      (match opts.hits with
       | some h => jsRound h
       | none => jsRound (density * (STEPS : ℚ))))).toNat
  let rootPc := (rootPcMap rootName).getD 0
  let allowedPc := (scalePcs scaleName).map fun v => (v + rootPc) % 12
  let allowed := allowedRowsOf allowedPc
  let rootRows := rootRowsOf rootPc
  if allowed.length = 0 then List.replicate STEPS none
  else
    let (mask, k2) := maskFromStyle r style hits STEPS k1
    let line0 : List (Option ℤ) := List.replicate STEPS none
    let (line1, k3) := synthEngine r style allowed rootPc jumpProb mask line0 k2
    let (line2, k4) := deRepeat r line1 k3
    let (line3, k5) := cadenceToRoot r allowed rootRows line2 k4
    let (q, _) := draw r k5
    if q < 25/100 then line3.set (line3.length - 1) none else line3

/-! ## Spec-side slice formulas (for the refinement comparison of §4.4)

These two follow the SPEC's words — `start = clamp(markers[m], 0, D)`,
`end = markers[m+1] if it exists else D`,
`duration = clamp(end - start, minimum 5ms, D - start)` — to be compared
with the code's `samplerStep`. -/

/-- Spec §4.4: `start = clamp(markers[m], 0, bufferDuration)`. -/
def specSliceStart (markers : List ℚ) (m : ℕ) (D : ℚ) : ℚ :=
  max 0 (min D (markers.getD m 0))

/-- Spec §4.4: `end = markers[m+1]` if it exists else `bufferDuration`. -/
def specSliceEnd (markers : List ℚ) (m : ℕ) (D : ℚ) : ℚ :=
  if m + 1 < markers.length then markers.getD (m + 1) 0 else D

/-- Spec §4.4: `duration = clamp(end - start, minimum 5ms, D - start)`,
i.e. `max(0.005, min(D - start, end - start))`. -/
def specSliceDur (markers : List ℚ) (m : ℕ) (D : ℚ) : ℚ :=
  max (5/1000) (min (D - specSliceStart markers m D)
    (specSliceEnd markers m D - specSliceStart markers m D))

/-- A constant `Math.random()` stream, used for concrete executions. -/
def rngZero : R := fun _ => 0

/-! ## General helper lemmas -/

theorem getD_mem_or {α : Type} (l : List α) (n : ℕ) (d : α) :
    l.getD n d ∈ l ∨ l.getD n d = d := by
  induction l generalizing n with
  | nil => exact Or.inr rfl
  | cons a t ih =>
    cases n with
    | zero => exact Or.inl (List.mem_cons_self a t)
    | succ m =>
      rw [List.getD_cons_succ]
      rcases ih m with h | h
      · exact Or.inl (List.mem_cons_of_mem a h)
      · exact Or.inr h

theorem set_getD_self {α : Type} (l : List α) (n : ℕ) (d : α)
    (h : n < l.length) : l.set n (l.getD n d) = l := by
  induction l generalizing n with
  | nil => simp at h
  | cons a t ih =>
    cases n with
    | zero => simp
    | succ m =>
      rw [List.getD_cons_succ]
      show a :: t.set m (t.getD m d) = a :: t
      rw [ih m (by simpa using h)]

theorem getD_set_self {α : Type} (l : List α) (n : ℕ) (x d : α)
    (h : n < l.length) : (l.set n x).getD n d = x := by
  induction l generalizing n with
  | nil => simp at h
  | cons a t ih =>
    cases n with
    | zero => simp
    | succ m =>
      show (a :: t.set m x).getD (m + 1) d = x
      rw [List.getD_cons_succ]
      exact ih m (by simpa using h)

/-! ## C1: Euclidean pre-rotation popcount -/

/-- Claim C1: for every `hits` in `0..16`, the pre-rotation Euclidean bucket
mask (`euclid` before its random rotation, with `STEPS = 16`) has exactly
`hits` true entries; `hits = 0` gives the all-false mask and `hits = 16`
the all-true mask. -/
theorem euclid_pre_rotation_popcount :
    ∀ hits : ℕ, hits ≤ 16 →
      (euclidBase hits STEPS).count true = hits ∧
      (hits = 0 → euclidBase hits STEPS = List.replicate STEPS false) ∧
      (hits = 16 → euclidBase hits STEPS = List.replicate STEPS true) := by
  decide

/-- Concrete instance of C1 at `hits = 4` (the spec's own scenario: true
exactly at indices 3, 7, 11, 15). -/
theorem euclid_pre_rotation_popcount_witness :
    (euclidBase 4 STEPS).count true = 4 ∧
      euclidBase 4 STEPS =
        [false, false, false, true, false, false, false, true,
         false, false, false, true, false, false, false, true] :=
  ⟨(euclid_pre_rotation_popcount 4 (by decide)).1, by decide⟩

/-! ## C6: accent velocities -/

/-- Claim C6: for every step `i < 16` and accent interval in `{0,2,3,4,8}`,
the kick velocity is the boosted value `1` exactly when the interval is
nonzero and `i mod interval = 0`, the snare velocity is the boosted `0.95`
exactly when the interval is nonzero and `i mod interval = 2`, and each
velocity is one of exactly two values (accented vs. unaccented). -/
theorem accent_velocity_rule :
    ∀ a ∈ [0, 2, 3, 4, 8], ∀ i < STEPS,
      (kickVel a i = 1 ∨ kickVel a i = 85/100) ∧
      (kickVel a i = 1 ↔ a ≠ 0 ∧ i % a = 0) ∧
      (snareVel a i = 95/100 ∨ snareVel a i = 8/10) ∧
      (snareVel a i = 95/100 ↔ a ≠ 0 ∧ i % a = 2) := by
  intro a _ i _
  refine ⟨?_, ?_, ?_, ?_⟩
  · simp only [kickVel]
    by_cases h : a ≠ 0 ∧ i % a = 0
    · exact Or.inl (if_pos h)
    · exact Or.inr (if_neg h)
  · simp only [kickVel]
    by_cases h : a ≠ 0 ∧ i % a = 0
    · rw [if_pos h]; exact iff_of_true rfl h
    · rw [if_neg h]; exact iff_of_false (by norm_num) h
  · simp only [snareVel]
    by_cases h : a ≠ 0 ∧ i % a = 2
    · exact Or.inl (if_pos h)
    · exact Or.inr (if_neg h)
  · simp only [snareVel]
    by_cases h : a ≠ 0 ∧ i % a = 2
    · rw [if_pos h]; exact iff_of_true rfl h
    · rw [if_neg h]; exact iff_of_false (by norm_num) h

/-- Concrete instance of C6 at interval 4, step 0 (kick accented) . -/
theorem accent_velocity_rule_witness :
    (kickVel 4 0 = 1 ∨ kickVel 4 0 = 85/100) ∧
      (kickVel 4 0 = 1 ↔ (4 : ℕ) ≠ 0 ∧ 0 % 4 = 0) ∧
      (snareVel 4 0 = 95/100 ∨ snareVel 4 0 = 8/10) ∧
      (snareVel 4 0 = 95/100 ↔ (4 : ℕ) ≠ 0 ∧ 0 % 4 = 2) :=
  accent_velocity_rule 4 (by decide) 0 (by decide)

/-! ## C3: sampler slice contract -/

/-- Claim C3: with a marker index `m` in range, the slice dispatched by the
sampler branch has exactly the spec's `start`/`end`/`duration` (when it
fires at all); any dispatched slice satisfies `0 ≤ start ≤ D` and
`duration ≥ 0.005`; a non-positive buffer duration or an unloaded player
skips the step with no call. -/
theorem sampler_slice_contract (markers : List ℚ) (m : ℕ) (D : ℚ)
    (hm : m < markers.length) :
    (0 < D → samplerStep true D markers (some m) =
        some (specSliceStart markers m D, specSliceDur markers m D)) ∧
    (∀ s d, samplerStep true D markers (some m) = some (s, d) →
        0 ≤ s ∧ s ≤ D ∧ 5/1000 ≤ d) ∧
    (D ≤ 0 → samplerStep true D markers (some m) = none) ∧
    samplerStep false D markers (some m) = none := by
  have hne : markers.length ≠ 0 := by omega
  have hdurpos : ∀ x : ℚ, 0 < max (5/1000) x :=
    fun x => lt_of_lt_of_le (by norm_num) (le_max_left _ _)
  refine ⟨?_, ?_, ?_, rfl⟩
  · intro hD
    show (if 0 < D ∧ markers.length ≠ 0 then _ else _) = _
    rw [if_pos ⟨hD, hne⟩, if_pos (hdurpos _)]
    rfl
  · intro s d h
    by_cases hD : 0 < D
    · rw [(by
        show (if 0 < D ∧ markers.length ≠ 0 then _ else _) = _
        rw [if_pos ⟨hD, hne⟩, if_pos (hdurpos _)]
        rfl :
          samplerStep true D markers (some m) =
            some (specSliceStart markers m D, specSliceDur markers m D))] at h
      obtain ⟨hs, hd⟩ := Prod.mk.injEq .. ▸ Option.some.injEq .. ▸ h
      subst hs
      subst hd
      refine ⟨le_max_left _ _, ?_, le_max_left _ _⟩
      exact max_le hD.le (min_le_left _ _)
    · have : samplerStep true D markers (some m) = none := by
        show (if 0 < D ∧ markers.length ≠ 0 then _ else _) = _
        rw [if_neg (by tauto)]
      rw [this] at h
      cases h
  · intro hD0
    show (if 0 < D ∧ markers.length ≠ 0 then _ else _) = _
    rw [if_neg (fun hc => absurd hc.1 (not_lt.mpr hD0))]

/-- Concrete instance of C3: zero-length buffer skips the step. -/
theorem sampler_slice_contract_witness :
    samplerStep true 0 [1, 3, 7] (some 1) = none :=
  (sampler_slice_contract [1, 3, 7] 1 0 (by decide)).2.2.1 le_rfl

/-! ## C8: marker-list invariants -/

/-- Claim C8: every marker-list operation preserves sortedness and the
`≤ MAX_MARKERS` cap; at the cap, adding a marker is a no-op. -/
theorem marker_ops_invariant (t : ℚ) (prev : List ℚ)
    (hs : prev.Sorted (· ≤ ·)) (hlen : prev.length ≤ MAX_MARKERS) :
    (addMarkerHere t prev).Sorted (· ≤ ·) ∧
    (addMarkerHere t prev).length ≤ MAX_MARKERS ∧
    (prev.length = MAX_MARKERS → addMarkerHere t prev = prev) ∧
    clearMarkers.Sorted (· ≤ ·) ∧ clearMarkers.length ≤ MAX_MARKERS ∧
    onSampleFileMarkers.Sorted (· ≤ ·) ∧
    onSampleFileMarkers.length ≤ MAX_MARKERS := by
  refine ⟨?_, ?_, ?_, List.sorted_nil, by decide, List.sorted_nil, by decide⟩
  · unfold addMarkerHere
    by_cases hcap : MAX_MARKERS ≤ prev.length
    · rwa [if_pos hcap]
    · rw [if_neg hcap]
      have h := @List.sorted_mergeSort ℚ
        (fun x y : ℚ => decide (x ≤ y))
        (fun a b c hab hbc => by
          simp only [decide_eq_true_eq] at *
          exact le_trans hab hbc)
        (fun a b => by
          simpa only [decide_eq_true_eq, Bool.or_eq_true] using le_total a b)
        (prev ++ [t])
      exact h.imp fun hd => of_decide_eq_true hd
  · unfold addMarkerHere
    by_cases hcap : MAX_MARKERS ≤ prev.length
    · rwa [if_pos hcap]
    · rw [if_neg hcap]
      rw [List.length_mergeSort]
      simp only [List.length_append, List.length_singleton]
      unfold MAX_MARKERS at *
      omega
  · intro hfull
    unfold addMarkerHere
    rw [if_pos (le_of_eq hfull.symm)]

/-- Concrete instance of C8 at the empty marker list. -/
theorem marker_ops_invariant_witness :
    (addMarkerHere 2 []).Sorted (· ≤ ·) ∧
      (addMarkerHere 2 []).length ≤ MAX_MARKERS :=
  ⟨(marker_ops_invariant 2 [] List.sorted_nil (by decide)).1,
   (marker_ops_invariant 2 [] List.sorted_nil (by decide)).2.1⟩

/-! ## C9: preset index wrapping (corrected) -/

/-- Counterexample to claim C9 as stated: at preset index `-7` the JavaScript
lookup index `(-7 + 5) % 5` is `-2` (JS `%` keeps the dividend's sign), so
`SYNTH_PRESETS[-2]` is out of bounds (`undefined`), not a wrapped element. -/
theorem applyPreset_out_of_bounds_ce :
    presetLookupIndex (-7) = -2 ∧ applyPresetChoice (-7) = none :=
  ⟨by decide, rfl⟩

/-- Claim C9 (amended): for every preset index `i ≥ -5` (so that
`i + SYNTH_PRESETS.length` is non-negative — this covers all indices the
component ever passes, which lie in `0..4`), the lookup index
`(i + 5) % 5` is in bounds and the lookup succeeds.  For `i ≤ -6` the JS
remainder is negative and the lookup is out of bounds. -/
theorem applyPreset_wrap_in_bounds (i : ℤ) (h : -5 ≤ i) :
    0 ≤ presetLookupIndex i ∧
      presetLookupIndex i < (SYNTH_PRESETS.length : ℤ) ∧
      (applyPresetChoice i).isSome = true := by
  have hlen : (SYNTH_PRESETS.length : ℤ) = 5 := by rfl
  have hnn : 0 ≤ i + (SYNTH_PRESETS.length : ℤ) := by rw [hlen]; omega
  have hmod : presetLookupIndex i =
      (i + (SYNTH_PRESETS.length : ℤ)) % (SYNTH_PRESETS.length : ℤ) := by
    unfold presetLookupIndex
    exact Int.tmod_eq_emod hnn (by rw [hlen]; norm_num)
  have h0 : 0 ≤ presetLookupIndex i := by
    rw [hmod]; exact Int.emod_nonneg _ (by rw [hlen]; norm_num)
  have h5 : presetLookupIndex i < (SYNTH_PRESETS.length : ℤ) := by
    rw [hmod]; exact Int.emod_lt_of_pos _ (by rw [hlen]; norm_num)
  refine ⟨h0, h5, ?_⟩
  unfold applyPresetChoice jsIndex
  rw [if_pos h0]
  rw [List.get?_eq_getElem?]
  rw [List.getElem?_eq_getElem (by
    have hlN : SYNTH_PRESETS.length = 5 := rfl
    rw [hlen] at h5
    rw [hlN]
    omega)]
  rfl

/-- Concrete instance of the amended C9 at `i = -5`. -/
theorem applyPreset_wrap_in_bounds_witness :
    0 ≤ presetLookupIndex (-5) ∧
      presetLookupIndex (-5) < (SYNTH_PRESETS.length : ℤ) ∧
      (applyPresetChoice (-5)).isSome = true :=
  applyPreset_wrap_in_bounds (-5) (by decide)

/-! ## C4: startup load (corrected) -/

/-- Counterexample to claim C4 as stated: a present but malformed value under
the pattern key makes `JSON.parse` throw inside the `useState` initializer —
there is no `try`/`catch`, so the load is fatal, not a fallback. -/
theorem load_malformed_throws_ce :
    loadPatternState (some .malformed) none = .error () := rfl

/-- Claim C4 (amended): a missing value under both keys yields the empty
default pattern, and a present well-formed value loads (a missing
`samplerRoll` field is filled with all-null); but a malformed value under
either key propagates the `JSON.parse` exception out of the initializer
instead of falling back. -/
theorem load_pattern_behavior :
    loadPatternState none none = .ok makeEmpty ∧
    (∀ leg, loadPatternState (some .malformed) leg = .error ()) ∧
    (∀ p, loadPatternState (some (.parsed p)) none =
      .ok { drums := p.drums
            synthRoll := p.synthRoll
            samplerRoll := p.samplerRoll.getD (List.replicate STEPS none) }) ∧
    loadPatternState none (some .malformed) = .error () := by
  exact ⟨rfl, fun _ => rfl, fun _ => rfl, rfl⟩

/-! ## C10: cell toggles (corrected) -/

/-- One-cell toggle on a roll list, applied twice, returns the original list
when the cell was empty or already held the toggled row. -/
theorem toggle_cell_invol (l : List (Option ℤ)) (row : ℤ) (col : ℕ)
    (h : col < l.length)
    (hc : l.getD col none = none ∨ l.getD col none = some row) :
    ((l.set col (if l.getD col none = some row then none else some row)).set col
      (if (l.set col (if l.getD col none = some row then none else some row)).getD
            col none = some row
       then none else some row)) = l := by
  rcases hc with hc | hc
  · rw [hc, if_neg (by simp), getD_set_self _ _ _ _ h, if_pos rfl, List.set_set]
    have : (none : Option ℤ) = l.getD col none := hc.symm
    rw [this, set_getD_self _ _ _ h]
  · rw [hc, if_pos rfl, getD_set_self _ _ _ _ h, if_neg (by simp), List.set_set]
    have : some row = l.getD col none := hc.symm
    rw [this, set_getD_self _ _ _ h]

/-- One-cell toggle applied twice on a cell holding anything other than the
toggled row clears the cell to `none`. -/
theorem toggle_cell_clears (l : List (Option ℤ)) (row : ℤ) (col : ℕ)
    (h : col < l.length) (hv : l.getD col none ≠ some row) :
    ((l.set col (if l.getD col none = some row then none else some row)).set col
      (if (l.set col (if l.getD col none = some row then none else some row)).getD
            col none = some row
       then none else some row)) = l.set col none := by
  rw [if_neg hv, getD_set_self _ _ _ _ h, if_pos rfl, List.set_set]

/-- The concrete pattern state refuting C10: the synth roll holds row 5 at
step 0. -/
def togglePatternCe : PatternState :=
  { makeEmpty with
    synthRoll := (List.replicate STEPS (none : Option ℤ)).set 0 (some 5) }

/-- Counterexample to claim C10 as stated: toggling synth-roll row 3 at step 0
twice on a state whose cell holds row 5 does not restore the state — the
double toggle clears the cell to `none` instead. -/
theorem toggleRoll_not_involution_ce :
    toggleRoll 3 0 (toggleRoll 3 0 togglePatternCe) ≠ togglePatternCe := by
  intro hEq
  have h2 := congrArg PatternState.synthRoll hEq
  have h3 : (toggleRoll 3 0 (toggleRoll 3 0 togglePatternCe)).synthRoll ≠
      togglePatternCe.synthRoll := by decide
  exact h3 h2

/-- Claim C10 (amended): `toggleDrum` is an involution at every in-bounds step;
`toggleRoll` and `toggleSamplerCell` are involutions at every in-bounds cell
that is empty or already holds the toggled row, and double-toggling a cell
that holds a different row clears it to empty instead of restoring it. -/
theorem toggle_involutions :
    (∀ (st : PatternState) (tr : TrackId) (i : ℕ), i < (st.drums tr).length →
        toggleDrum tr i (toggleDrum tr i st) = st) ∧
    (∀ (st : PatternState) (row : ℤ) (col : ℕ), col < st.synthRoll.length →
        (st.synthRoll.getD col none = none ∨
          st.synthRoll.getD col none = some row) →
        toggleRoll row col (toggleRoll row col st) = st) ∧
    (∀ (st : PatternState) (row : ℤ) (col : ℕ), col < st.samplerRoll.length →
        (st.samplerRoll.getD col none = none ∨
          st.samplerRoll.getD col none = some row) →
        toggleSamplerCell row col (toggleSamplerCell row col st) = st) ∧
    (∀ (st : PatternState) (row : ℤ) (col : ℕ), col < st.synthRoll.length →
        st.synthRoll.getD col none ≠ some row →
        (toggleRoll row col (toggleRoll row col st)).synthRoll =
          st.synthRoll.set col none) ∧
    (∀ (st : PatternState) (row : ℤ) (col : ℕ), col < st.samplerRoll.length →
        st.samplerRoll.getD col none ≠ some row →
        (toggleSamplerCell row col (toggleSamplerCell row col st)).samplerRoll =
          st.samplerRoll.set col none) := by
  refine ⟨?_, ?_, ?_, ?_, ?_⟩
  · intro st tr i hi
    cases st with
    | mk dr sr sa =>
      simp only [toggleDrum, Function.update_same] at hi ⊢
      congr 1
      rw [Function.update_idem]
      rw [getD_set_self _ _ _ _ (by simpa using hi), Bool.not_not,
          List.set_set, set_getD_self _ _ _ hi, Function.update_eq_self]
  · intro st row col hc hcell
    cases st with
    | mk dr sr sa =>
      simp only [toggleRoll] at hc hcell ⊢
      congr 1
      exact toggle_cell_invol sr row col hc hcell
  · intro st row col hc hcell
    cases st with
    | mk dr sr sa =>
      simp only [toggleSamplerCell] at hc hcell ⊢
      congr 1
      exact toggle_cell_invol sa row col hc hcell
  · intro st row col hc hv
    cases st with
    | mk dr sr sa =>
      simp only [toggleRoll] at hc hv ⊢
      exact toggle_cell_clears sr row col hc hv
  · intro st row col hc hv
    cases st with
    | mk dr sr sa =>
      simp only [toggleSamplerCell] at hc hv ⊢
      exact toggle_cell_clears sa row col hc hv

/-- Concrete instance of the amended C10: double-toggling an empty drum cell
and an empty synth cell restores the empty pattern. -/
theorem toggle_involutions_witness :
    toggleDrum .kick 0 (toggleDrum .kick 0 makeEmpty) = makeEmpty ∧
      toggleRoll 3 0 (toggleRoll 3 0 makeEmpty) = makeEmpty :=
  ⟨toggle_involutions.1 makeEmpty .kick 0 (by decide),
   toggle_involutions.2.1 makeEmpty 3 0 (by decide) (Or.inl (by decide))⟩

/-! ## C5: de-repeat pass (corrected) -/

/-- Counterexample to claim C5 as stated: two adjacent active steps both at
row 0 (the first row), with the random stream forcing the change branch
(`0 < 0.55`) and the upward nudge (`0 < 0.5`): the second value stays `0`,
equal to the first, because the upward nudge falls off the roll. -/
theorem deRepeat_boundary_ce :
    rngZero 0 < 55/100 ∧ rngZero 1 < 1/2 ∧
      (deRepeat rngZero [some 0, some 0] 0).1 = [some 0, some 0] := by
  refine ⟨by norm_num [rngZero], by norm_num [rngZero], ?_⟩
  norm_num [deRepeat, deRepeatGo, draw, rngZero, ROLL_NOTES]

/-- Claim C5 (amended): when the change branch is forced on two identical
adjacent active rows, the second value becomes a physically adjacent row
(one above or below, not filtered by any allowed set) and differs from the
first whenever the first is an interior row; at the boundary rows (0 with
the upward nudge, `ROLL_NOTES.length - 1` with the downward nudge) the value
stays unchanged. -/
theorem deRepeat_change_branch :
    (∀ (r : R) (v : ℤ) (rest : List (Option ℤ)) (k : ℕ),
        r k < 55/100 → 0 < v → v + 1 < (ROLL_NOTES.length : ℤ) →
        ∃ w, (deRepeatGo r (some v :: rest) (some v) k).1.getD 0 none = some w ∧
          w ≠ v ∧ (w = v - 1 ∨ w = v + 1)) ∧
    (∀ (r : R) (rest : List (Option ℤ)) (k : ℕ),
        r k < 55/100 → r (k + 1) < 1/2 →
        (deRepeatGo r (some 0 :: rest) (some 0) k).1.getD 0 none = some 0) ∧
    (∀ (r : R) (rest : List (Option ℤ)) (k : ℕ),
        r k < 55/100 → ¬ r (k + 1) < 1/2 →
        (deRepeatGo r (some ((ROLL_NOTES.length : ℤ) - 1) :: rest)
            (some ((ROLL_NOTES.length : ℤ) - 1)) k).1.getD 0 none =
          some ((ROLL_NOTES.length : ℤ) - 1)) := by
  have hlen : (ROLL_NOTES.length : ℤ) = 12 := rfl
  refine ⟨?_, ?_, ?_⟩
  · intro r v rest k hb h0 h1
    by_cases hcoin : r (k + 1) < 1/2
    · refine ⟨v - 1, ?_, by omega, Or.inl rfl⟩
      simp only [deRepeatGo, draw]
      rw [if_pos trivial, if_pos hb, if_pos hcoin,
          if_pos (by omega : (0 : ℤ) ≤ v - 1)]
      rfl
    · refine ⟨v + 1, ?_, by omega, Or.inr rfl⟩
      simp only [deRepeatGo, draw]
      rw [if_pos trivial, if_pos hb, if_neg hcoin, if_pos h1]
      rfl
  · intro r rest k hb hcoin
    simp only [deRepeatGo, draw]
    rw [if_pos trivial, if_pos hb, if_pos hcoin,
        if_neg (by norm_num : ¬(0 : ℤ) ≤ 0 - 1)]
    rfl
  · intro r rest k hb hcoin
    simp only [deRepeatGo, draw]
    rw [if_pos trivial, if_pos hb, if_neg hcoin,
        if_neg (by rw [hlen]; norm_num :
          ¬(ROLL_NOTES.length : ℤ) - 1 + 1 < (ROLL_NOTES.length : ℤ))]
    rfl

/-- Concrete instance of the amended C5 at interior row 5 with the all-zero
stream (change branch and upward nudge forced): the second value becomes 4. -/
theorem deRepeat_change_branch_witness :
    ∃ w, (deRepeatGo rngZero [some 5] (some 5) 0).1.getD 0 none = some w ∧
      w ≠ 5 ∧ (w = 5 - 1 ∨ w = 5 + 1) :=
  deRepeat_change_branch.1 rngZero 5 [] 0 (by norm_num [rngZero]) (by norm_num)
    (by decide)

/-! ## C2: melody generator row-index safety -/

/-- A legal row index into `ROLL_NOTES`. -/
def rowOk (v : ℤ) : Prop := 0 ≤ v ∧ v < (ROLL_NOTES.length : ℤ)

/-- Every element of the list is a legal row index. -/
def rowsOk (l : List ℤ) : Prop := ∀ v ∈ l, rowOk v

/-- Every non-null entry of a roll line is a legal row index. -/
def lineOk (l : List (Option ℤ)) : Prop := ∀ v : ℤ, some v ∈ l → rowOk v

theorem rowOk_zero : rowOk 0 := ⟨le_refl 0, by decide⟩

theorem rowsOk_of_sub {l1 l2 : List ℤ} (h : ∀ x ∈ l1, x ∈ l2)
    (h2 : rowsOk l2) : rowsOk l1 := fun v hv => h2 v (h v hv)

theorem rowsOk_getD {l : List ℤ} (h : rowsOk l) (n : ℕ) : rowOk (l.getD n 0) := by
  rcases getD_mem_or l n 0 with hm | hm
  · exact h _ hm
  · rw [hm]; exact rowOk_zero

theorem jsIndex_getD_mem_or {α : Type} (l : List α) (i : ℤ) (d : α) :
    (jsIndex l i).getD d ∈ l ∨ (jsIndex l i).getD d = d := by
  unfold jsIndex
  split
  · cases hg : l.get? i.toNat with
    | none => exact Or.inr rfl
    | some x => exact Or.inl (List.get?_mem hg)
  · exact Or.inr rfl

theorem rowOk_jsIndex {l : List ℤ} (h : rowsOk l) (i : ℤ) :
    rowOk ((jsIndex l i).getD 0) := by
  rcases jsIndex_getD_mem_or l i 0 with hm | hm
  · exact h _ hm
  · rw [hm]; exact rowOk_zero

theorem rowOk_rowPickAt {l : List ℤ} (h : rowsOk l) (q : ℚ) :
    rowOk (rowPickAt l q) := rowOk_jsIndex h _

theorem rowOk_clampZ (v : ℤ) :
    rowOk (clampZ v 0 ((ROLL_NOTES.length : ℤ) - 1)) := by
  unfold clampZ rowOk
  exact ⟨le_max_left 0 _,
    max_lt (by decide) (lt_of_le_of_lt (min_le_left _ _) (by decide))⟩

theorem rowsOk_allowedRowsOf (pc : List ℤ) : rowsOk (allowedRowsOf pc) := by
  intro v hv
  unfold allowedRowsOf at hv
  rw [List.mem_filterMap] at hv
  obtain ⟨i, hi, hif⟩ := hv
  rw [List.mem_range] at hi
  split at hif
  · obtain rfl : (i : ℤ) = v := Option.some.inj hif
    exact ⟨Int.natCast_nonneg i, by exact_mod_cast hi⟩
  · cases hif

theorem rowsOk_rootRowsOf (p : ℤ) : rowsOk (rootRowsOf p) := by
  intro v hv
  unfold rootRowsOf at hv
  rw [List.mem_filterMap] at hv
  obtain ⟨i, hi, hif⟩ := hv
  rw [List.mem_range] at hi
  split at hif
  · obtain rfl : (i : ℤ) = v := Option.some.inj hif
    exact ⟨Int.natCast_nonneg i, by exact_mod_cast hi⟩
  · cases hif

theorem rowsOk_filter {l : List ℤ} (p : ℤ → Bool) (h : rowsOk l) :
    rowsOk (l.filter p) :=
  rowsOk_of_sub (fun x hx => (List.mem_filter.mp hx).1) h

theorem rowsOk_mergeSort {l : List ℤ} (le : ℤ → ℤ → Bool) (h : rowsOk l) :
    rowsOk (l.mergeSort le) :=
  rowsOk_of_sub (fun x hx => (List.mergeSort_perm l le).subset hx) h

theorem rowsOk_ite {c : Prop} [Decidable c] {l1 l2 : List ℤ}
    (h1 : rowsOk l1) (h2 : rowsOk l2) : rowsOk (if c then l1 else l2) := by
  split
  · exact h1
  · exact h2

theorem pickN_mem {α : Type} (dflt : α) (r : R) :
    ∀ (n : ℕ) (a : List α) (k : ℕ), ∀ x ∈ (pickN dflt r a n k).1,
      x ∈ a ∨ x = dflt := by
  intro n
  induction n with
  | zero => intro a k x hx; simp [pickN] at hx
  | succ m ih =>
    intro a k x hx
    cases a with
    | nil => simp [pickN] at hx
    | cons b t =>
      simp only [pickN, draw] at hx
      rcases List.mem_cons.mp hx with hx | hx
      · subst hx
        exact (jsIndex_getD_mem_or (b :: t) _ dflt).imp_left id
      · rcases ih _ _ x hx with h | h
        · by_cases h0 : (0 : ℤ) ≤ ⌊r k * (((b :: t).length : ℕ) : ℚ)⌋
          · rw [if_pos h0] at h
            exact Or.inl (List.mem_of_mem_eraseIdx h)
          · rw [if_neg h0] at h
            exact Or.inl h
        · exact Or.inr h

theorem rowsOk_pickN {a : List ℤ} (h : rowsOk a) (r : R) (n k : ℕ) :
    rowsOk (pickN 0 r a n k).1 := fun x hx =>
  (pickN_mem 0 r n a k x hx).elim (h x) (fun he => he ▸ rowOk_zero)

theorem lineOk_nil : lineOk [] := fun v hv => absurd hv (List.not_mem_nil _)

theorem lineOk_replicate_none (n : ℕ) : lineOk (List.replicate n none) := by
  intro v hv
  cases List.eq_of_mem_replicate hv

theorem lineOk_cons {x : Option ℤ} {l : List (Option ℤ)}
    (hx : ∀ v, x = some v → rowOk v) (hl : lineOk l) : lineOk (x :: l) := by
  intro v hv
  rcases List.mem_cons.mp hv with hv | hv
  · exact hx v hv.symm
  · exact hl v hv

theorem lineOk_of_cons {x : Option ℤ} {l : List (Option ℤ)}
    (h : lineOk (x :: l)) : (∀ v, x = some v → rowOk v) ∧ lineOk l :=
  ⟨fun v hv => h v (hv ▸ List.mem_cons_self _ _),
   fun v hv => h v (List.mem_cons_of_mem _ hv)⟩

theorem lineOk_set {l : List (Option ℤ)} (h : lineOk l) {v : ℤ}
    (hv : rowOk v) (i : ℕ) : lineOk (l.set i (some v)) := by
  intro w hw
  rcases List.mem_or_eq_of_mem_set hw with hw | hw
  · exact h w hw
  · obtain rfl : w = v := Option.some.inj hw
    exact hv

theorem lineOk_set_none {l : List (Option ℤ)} (h : lineOk l) (i : ℕ) :
    lineOk (l.set i none) := by
  intro w hw
  rcases List.mem_or_eq_of_mem_set hw with hw | hw
  · exact h w hw
  · cases hw

theorem rowOk_prodIte {c : Prop} [Decidable c] {a b : ℤ} {x y : ℕ}
    (ha : rowOk a) (hb : rowOk b) : rowOk ((if c then (a, x) else (b, y)).1) := by
  split
  · exact ha
  · exact hb

theorem lineOk_placeArpGo (r : R) (seqL : List ℤ) (mask : List Bool)
    (hseq : rowsOk seqL) :
    ∀ (is : List ℕ) (line : List (Option ℤ)) (ptr k : ℕ), lineOk line →
      lineOk (placeArpGo r seqL mask is line ptr k).1 := by
  intro is
  induction is with
  | nil => intro line ptr k h; exact h
  | cons i is ih =>
    intro line ptr k h
    simp only [placeArpGo, draw]
    by_cases hm : mask.getD i false = true
    · rw [if_pos hm]
      by_cases hq : r k < 12/100
      · rw [if_pos hq]
        exact ih _ _ _ (lineOk_set h (rowOk_clampZ _) i)
      · rw [if_neg hq]
        exact ih _ _ _ (lineOk_set h (rowsOk_getD hseq _) i)
    · rw [if_neg hm]
      exact ih _ _ _ h

theorem lineOk_placeArp (r : R) (allowed : List ℤ) (mask : List Bool)
    (dir : ArpDir) (line : List (Option ℤ)) (k : ℕ)
    (hall : rowsOk allowed) (h : lineOk line) :
    lineOk (placeArp r allowed mask dir line k).1 := by
  have hchord : ∀ (src : List ℤ), rowsOk src → ∀ n kk,
      rowsOk ((pickN 0 r src n kk).1.mergeSort fun x y => decide (x ≤ y)) :=
    fun src hsrc n kk => rowsOk_mergeSort _ (rowsOk_pickN hsrc r n kk)
  have hsrc : rowsOk (if (allowed.filter fun x =>
      decide (|x - allowed.getD (allowed.length / 2) 0| ≤ 4)).length ≠ 0
      then allowed.filter fun x =>
        decide (|x - allowed.getD (allowed.length / 2) 0| ≤ 4)
      else allowed) := rowsOk_ite (rowsOk_filter _ hall) hall
  cases dir with
  | up =>
    simp only [placeArp]
    exact lineOk_placeArpGo r _ mask (hchord _ hsrc _ _) _ _ _ _ h
  | down =>
    simp only [placeArp]
    refine lineOk_placeArpGo r _ mask ?_ _ _ _ _ h
    exact rowsOk_of_sub (fun x hx => List.mem_reverse.mp hx) (hchord _ hsrc _ _)
  | bounce =>
    simp only [placeArp]
    refine lineOk_placeArpGo r _ mask ?_ _ _ _ _ h
    intro x hx
    rcases List.mem_append.mp hx with hx | hx
    · exact hchord _ hsrc _ _ x hx
    · have h1 := List.dropLast_subset _ hx
      have h2 := List.drop_subset 1 _ h1
      exact hchord _ hsrc _ _ x (List.mem_reverse.mp h2)

theorem lineOk_placeMotifGo (r : R) (allowed motif : List ℤ)
    (mask : List Bool) (hall : rowsOk allowed) (hmot : rowsOk motif) :
    ∀ (is : List ℕ) (line : List (Option ℤ)) (k : ℕ), lineOk line →
      lineOk (placeMotifGo r allowed motif mask is line k).1 := by
  intro is
  induction is with
  | nil => intro line k h; exact h
  | cons i is ih =>
    intro line k h
    simp only [placeMotifGo, draw]
    by_cases hm : mask.getD i false = true
    · rw [if_pos hm]
      apply ih
      apply lineOk_set h _ i
      apply rowOk_prodIte (rowOk_rowPickAt hall _)
      exact rowOk_prodIte (rowOk_clampZ _) (rowsOk_getD hmot _)
    · rw [if_neg hm]
      exact ih _ _ h

theorem lineOk_placeMotif (r : R) (allowed : List ℤ) (mask : List Bool)
    (line : List (Option ℤ)) (k : ℕ) (hall : rowsOk allowed)
    (h : lineOk line) : lineOk (placeMotif r allowed mask line k).1 := by
  simp only [placeMotif, draw]
  apply lineOk_placeMotifGo r allowed _ mask hall _ _ _ _ h
  intro v hv
  simp only [List.mem_cons, List.not_mem_nil, or_false] at hv
  rcases hv with rfl | rfl | rfl | rfl
  · exact rowsOk_getD hall _
  · exact rowOk_clampZ _
  · exact rowsOk_getD hall _
  · exact rowOk_clampZ _

theorem rowsOk_boundFilter (l : List ℤ) :
    rowsOk (l.filter fun x => decide (0 ≤ x ∧ x < (ROLL_NOTES.length : ℤ))) := by
  intro v hv
  have h2 := (List.mem_filter.mp hv).2
  rw [decide_eq_true_eq] at h2
  exact h2

theorem lineOk_placeBassGo (r : R) (allowed : List ℤ) (mask : List Bool)
    (hall : rowsOk allowed) :
    ∀ (is : List ℕ) (line : List (Option ℤ)) (prev : Option ℤ) (k : ℕ),
      lineOk line → (∀ p, prev = some p → rowOk p) →
      lineOk (placeBassGo r allowed mask is line prev k).1 := by
  intro is
  induction is with
  | nil => intro line prev k h _; exact h
  | cons i is ih =>
    intro line prev k h hp
    cases prev with
    | none =>
      simp only [placeBassGo, draw]
      by_cases hm : mask.getD i false = true
      · rw [if_pos hm]
        refine ih _ _ _ (lineOk_set h (rowsOk_getD hall _) i) ?_
        intro p hpe
        obtain rfl : _ = p := Option.some.inj hpe
        exact rowsOk_getD hall _
      · rw [if_neg hm]
        exact ih _ _ _ h hp
    | some p =>
      have hpok : rowOk p := hp p rfl
      simp only [placeBassGo, draw]
      by_cases hm : mask.getD i false = true
      · rw [if_pos hm]
        by_cases hq1 : r k < 15/100
        · rw [if_pos hq1]
          refine ih _ _ _ (lineOk_set h (rowOk_rowPickAt hall _) i) ?_
          intro w hwe
          obtain rfl : _ = w := Option.some.inj hwe
          exact rowOk_rowPickAt hall _
        · rw [if_neg hq1]
          by_cases hc : ([p - 2, p - 1, p + 1, p + 2].filter fun x =>
              decide (0 ≤ x ∧ x < (ROLL_NOTES.length : ℤ))).length ≠ 0
          · rw [if_pos hc]
            refine ih _ _ _
              (lineOk_set h (rowOk_rowPickAt (rowsOk_boundFilter _) _) i) ?_
            intro w hwe
            obtain rfl : _ = w := Option.some.inj hwe
            exact rowOk_rowPickAt (rowsOk_boundFilter _) _
          · rw [if_neg hc]
            refine ih _ _ _ (lineOk_set h hpok i) ?_
            intro w hwe
            obtain rfl : _ = w := Option.some.inj hwe
            exact hpok
      · rw [if_neg hm]
        exact ih _ _ _ h hp

theorem lineOk_placeBass (r : R) (allowed : List ℤ) (mask : List Bool)
    (line : List (Option ℤ)) (k : ℕ) (hall : rowsOk allowed)
    (h : lineOk line) : lineOk (placeBass r allowed mask line k).1 :=
  lineOk_placeBassGo r allowed mask hall _ _ _ _ h (fun p hp => nomatch hp)

theorem lineOk_placeEuclidGo (r : R) (allowed : List ℤ) (mask : List Bool)
    (jumpProb : ℚ) (hall : rowsOk allowed) :
    ∀ (is : List ℕ) (line : List (Option ℤ)) (cur : ℤ) (k : ℕ),
      lineOk line →
      lineOk (placeEuclidGo r allowed mask jumpProb is line cur k).1 := by
  intro is
  induction is with
  | nil => intro line cur k h; exact h
  | cons i is ih =>
    intro line cur k h
    simp only [placeEuclidGo, draw]
    by_cases hm : mask.getD i false = true
    · rw [if_pos hm]
      by_cases hq : r k < jumpProb
      · rw [if_pos hq]
        exact ih _ _ _ (lineOk_set h (rowOk_rowPickAt hall _) i)
      · rw [if_neg hq]
        exact ih _ _ _ (lineOk_set h (rowOk_clampZ _) i)
    · rw [if_neg hm]
      exact ih _ _ _ h

theorem lineOk_placeEuclid (r : R) (allowed : List ℤ) (mask : List Bool)
    (jumpProb : ℚ) (line : List (Option ℤ)) (k : ℕ) (hall : rowsOk allowed)
    (h : lineOk line) :
    lineOk (placeEuclid r allowed mask jumpProb line k).1 :=
  lineOk_placeEuclidGo r allowed mask jumpProb hall _ _ _ _ h

theorem lineOk_placeSparseGo (r : R) (srcRows : List ℤ) (mask : List Bool)
    (hsrc : rowsOk srcRows) :
    ∀ (is : List ℕ) (line : List (Option ℤ)) (k : ℕ), lineOk line →
      lineOk (placeSparseGo r srcRows mask is line k).1 := by
  intro is
  induction is with
  | nil => intro line k h; exact h
  | cons i is ih =>
    intro line k h
    simp only [placeSparseGo, draw]
    by_cases hm : mask.getD i false = true
    · rw [if_pos hm]
      exact ih _ _ (lineOk_set h (rowOk_rowPickAt hsrc _) i)
    · rw [if_neg hm]
      exact ih _ _ h

theorem lineOk_placeSparse (r : R) (allowed : List ℤ) (rootPc : ℤ)
    (mask : List Bool) (line : List (Option ℤ)) (k : ℕ)
    (hall : rowsOk allowed) (h : lineOk line) :
    lineOk (placeSparse r allowed rootPc mask line k).1 := by
  simp only [placeSparse]
  exact lineOk_placeSparseGo r _ mask
    (rowsOk_ite (rowsOk_filter _ hall) hall) _ _ _ h

theorem lineOk_deRepeatGo (r : R) :
    ∀ (l : List (Option ℤ)) (prev : Option ℤ) (k : ℕ), lineOk l →
      lineOk (deRepeatGo r l prev k).1 := by
  intro l
  induction l with
  | nil => intro prev k h; exact h
  | cons x rest ih =>
    intro prev k h
    obtain ⟨hx, hrest⟩ := lineOk_of_cons h
    cases x with
    | none =>
      simp only [deRepeatGo]
      exact lineOk_cons hx (ih _ _ hrest)
    | some v =>
      have hvok : rowOk v := hx v rfl
      cases prev with
      | none =>
        simp only [deRepeatGo]
        exact lineOk_cons hx (ih _ _ hrest)
      | some p =>
        simp only [deRepeatGo, draw]
        by_cases hvp : v = p
        · rw [if_pos hvp]
          by_cases hq : r k < 55/100
          · rw [if_pos hq]
            apply lineOk_cons _ (ih _ _ hrest)
            intro w hwe
            obtain rfl : _ = w := Option.some.inj hwe
            have h0 := hvok.1
            have h1 := hvok.2
            split
            · split
              next h2 => exact ⟨h2, by omega⟩
              next _ => exact hvok
            · split
              next h2 => exact ⟨by omega, h2⟩
              next _ => exact hvok
          · rw [if_neg hq]
            exact lineOk_cons hx (ih _ _ hrest)
        · rw [if_neg hvp]
          exact lineOk_cons hx (ih _ _ hrest)

theorem lineOk_deRepeat (r : R) (l : List (Option ℤ)) (k : ℕ)
    (h : lineOk l) : lineOk (deRepeat r l k).1 := by
  cases l with
  | nil => exact h
  | cons x rest =>
    obtain ⟨hx, hrest⟩ := lineOk_of_cons h
    simp only [deRepeat]
    exact lineOk_cons hx (lineOk_deRepeatGo r _ _ _ hrest)

theorem nearestIn_ok {rows : List ℤ} (h : rowsOk rows) (cur : ℤ) :
    rowOk (nearestIn rows cur) := by
  unfold nearestIn
  have base : rowOk (rows.getD 0 0) := rowsOk_getD h 0
  have gen : ∀ (l : List ℤ), (∀ x ∈ l, rowOk x) → ∀ b, rowOk b →
      rowOk (l.foldl (fun best rr =>
        if |rr - cur| < |best - cur| then rr else best) b) := by
    intro l
    induction l with
    | nil => intro _ b hb; exact hb
    | cons a t ihl =>
      intro hl b hb
      simp only [List.foldl_cons]
      apply ihl (fun x hxm => hl x (List.mem_cons_of_mem _ hxm))
      split
      · exact hl a (List.mem_cons_self _ _)
      · exact hb
  exact gen rows h _ base

theorem lineOk_cadenceGo (r : R) (rootRows : List ℤ) (hroot : rowsOk rootRows) :
    ∀ (is : List ℕ) (line : List (Option ℤ)) (k : ℕ), lineOk line →
      lineOk (cadenceGo r rootRows is line k).1 := by
  intro is
  induction is with
  | nil => intro line k h; exact h
  | cons i is ih =>
    intro line k h
    simp only [cadenceGo, draw]
    cases hcell : line.getD i none with
    | none => exact ih _ _ h
    | some cur =>
      show lineOk (if r k < 1/2
        then cadenceGo r rootRows is
          (line.set i (some (nearestIn rootRows cur))) (k + 1)
        else cadenceGo r rootRows is line (k + 1)).1
      by_cases hq : r k < 1/2
      · rw [if_pos hq]
        exact ih _ _ (lineOk_set h (nearestIn_ok hroot cur) i)
      · rw [if_neg hq]
        exact ih _ _ h

theorem lineOk_cadenceToRoot (r : R) (allowed rootRows : List ℤ)
    (hroot : rowsOk rootRows) (line : List (Option ℤ)) (k : ℕ)
    (h : lineOk line) : lineOk (cadenceToRoot r allowed rootRows line k).1 := by
  unfold cadenceToRoot
  split
  · exact h
  · exact lineOk_cadenceGo r rootRows hroot _ _ _ h

theorem lineOk_synthEngine (r : R) (style : Style) (allowed : List ℤ)
    (rootPc : ℤ) (jumpProb : ℚ) (mask : List Bool)
    (line0 : List (Option ℤ)) (k : ℕ) (hall : rowsOk allowed)
    (h : lineOk line0) :
    lineOk (synthEngine r style allowed rootPc jumpProb mask line0 k).1 := by
  cases style with
  | arpUp => exact lineOk_placeArp r allowed mask .up line0 k hall h
  | arpDown => exact lineOk_placeArp r allowed mask .down line0 k hall h
  | arpBounce => exact lineOk_placeArp r allowed mask .bounce line0 k hall h
  | syncopatedBass => exact lineOk_placeBass r allowed mask line0 k hall h
  | euclidShuffle => exact lineOk_placeEuclid r allowed mask jumpProb line0 k hall h
  | sparseMotif => exact lineOk_placeSparse r allowed rootPc mask line0 k hall h
  | denseRun => exact lineOk_placeEuclid r allowed mask jumpProb line0 k hall h
  | offbeatStab => exact lineOk_placeSparse r allowed rootPc mask line0 k hall h
  | motifVariations => exact lineOk_placeMotif r allowed mask line0 k hall h

theorem lineOk_randomizeSynth (r : R) (arg : RandomizeArg) :
    lineOk (randomizeSynth r arg) := by
  simp only [randomizeSynth]
  split
  · exact lineOk_replicate_none _
  · split
    · apply lineOk_set_none
      apply lineOk_cadenceToRoot r _ _ (rowsOk_rootRowsOf _) _ _
      apply lineOk_deRepeat
      exact lineOk_synthEngine r _ _ _ _ _ _ _ (rowsOk_allowedRowsOf _)
        (lineOk_replicate_none _)
    · apply lineOk_cadenceToRoot r _ _ (rowsOk_rootRowsOf _) _ _
      apply lineOk_deRepeat
      exact lineOk_synthEngine r _ _ _ _ _ _ _ (rowsOk_allowedRowsOf _)
        (lineOk_replicate_none _)

/-- Claim C2: for every argument to `randomizeSynth` (any style, scale, root,
density/hits, jump probability) and every random stream, every entry of the
produced `synthRoll` is either the `none` sentinel or a row index in
`[0, ROLL_NOTES.length)`. -/
theorem randomizeSynth_rows_in_range (r : R) (arg : RandomizeArg) :
    ((randomizeSynth r arg).all fun e =>
      e.all fun v => decide (0 ≤ v ∧ v < (ROLL_NOTES.length : ℤ))) = true := by
  rw [List.all_eq_true]
  intro e he
  cases e with
  | none => rfl
  | some v => exact decide_eq_true (lineOk_randomizeSynth r arg v he)

end StepSeq
